import Mathlib

/-!
Shallow embedding of the totalcomp RSU calculator core
(`rsuCalculations` / `stockPrices` / the `updateVestPrices` handler of
`RSUCalculator`), together with proofs settling the specification claims.

JavaScript `number`s are modelled exactly: share counts and month offsets
are `Int` (all the arithmetic the code performs on them is integral:
`Math.floor` of a quotient is `Int.fdiv`, `Math.ceil` of a quotient is
negated `Int.fdiv` of the negation), and prices/values are `Rat`.
Floating-point rounding is outside the model.  `Int.fdiv _ 0 = 0` in Lean
whereas JavaScript division by zero yields `Infinity`; no theorem below is
decided at a zero divisor.

JavaScript `Date`s carry a calendar date; `date-fns`'s `addMonths` adds to
the month component, clamping the day-of-month to the length of the target
month.  `Date` comparison is timestamp order, which for well-formed dates
is lexicographic on (year, month, day).
-/

/-- A calendar date, standing for a JavaScript `Date` at midnight.
`month` is 1–12 and `day` 1–31 for well-formed dates. -/
structure CalDate where
  year : Int
  month : Nat
  day : Nat
deriving DecidableEq, Repr

/-- Number of months from month 1 of year 0; orders well-formed dates by
(year, month). -/
def CalDate.monthIndex (d : CalDate) : Int :=
  d.year * 12 + (d.month : Int) - 1

/-- Gregorian leap-year rule (as implemented by the JavaScript `Date`). -/
def isLeapYear (y : Int) : Bool :=
  y % 4 = 0 && (y % 100 ≠ 0 || y % 400 = 0)

/-- Days in a month of the proleptic Gregorian calendar. -/
def daysInMonth (y : Int) (m : Nat) : Nat :=
  if m = 2 then (if isLeapYear y then 29 else 28)
  else if m = 4 ∨ m = 6 ∨ m = 9 ∨ m = 11 then 30
  else 31

/-- Model of `date-fns` `addMonths`: advance the month component by `n`, keeping the
day-of-month but clamping it to the length of the target month. -/
def addMonths (d : CalDate) (n : Int) : CalDate :=
  let t : Int := d.year * 12 + ((d.month : Int) - 1) + n
  let y : Int := t / 12
  let m : Nat := (t % 12).toNat + 1
  { year := y, month := m, day := min d.day (daysInMonth y m) }

/-- Timestamp order of well-formed JavaScript `Date`s:
lexicographic on (year, month, day), with (year, month) collapsed into
`monthIndex`. -/
instance : LE CalDate :=
  ⟨fun d1 d2 => d1.monthIndex < d2.monthIndex ∨
    (d1.monthIndex = d2.monthIndex ∧ d1.day ≤ d2.day)⟩

instance : LT CalDate :=
  ⟨fun d1 d2 => d1.monthIndex < d2.monthIndex ∨
    (d1.monthIndex = d2.monthIndex ∧ d1.day < d2.day)⟩

instance (d1 d2 : CalDate) : Decidable (d1 ≤ d2) :=
  inferInstanceAs (Decidable (d1.monthIndex < d2.monthIndex ∨
    (d1.monthIndex = d2.monthIndex ∧ d1.day ≤ d2.day)))

instance (d1 d2 : CalDate) : Decidable (d1 < d2) :=
  inferInstanceAs (Decidable (d1.monthIndex < d2.monthIndex ∨
    (d1.monthIndex = d2.monthIndex ∧ d1.day < d2.day)))

theorem CalDate.le_def (d1 d2 : CalDate) :
    d1 ≤ d2 ↔ (d1.monthIndex < d2.monthIndex ∨
      (d1.monthIndex = d2.monthIndex ∧ d1.day ≤ d2.day)) := Iff.rfl

theorem CalDate.lt_def (d1 d2 : CalDate) :
    d1 < d2 ↔ (d1.monthIndex < d2.monthIndex ∨
      (d1.monthIndex = d2.monthIndex ∧ d1.day < d2.day)) := Iff.rfl

theorem CalDate.le_trans {d1 d2 d3 : CalDate} (h1 : d1 ≤ d2) (h2 : d2 ≤ d3) :
    d1 ≤ d3 := by
  rw [CalDate.le_def] at h1 h2 ⊢
  omega

theorem monthIndex_addMonths (d : CalDate) (n : Int) :
    (addMonths d n).monthIndex = d.monthIndex + n := by
  simp only [addMonths, CalDate.monthIndex]
  omega

theorem addMonths_strictMono (d : CalDate) {m n : Int} (h : m < n) :
    addMonths d m < addMonths d n := by
  rw [CalDate.lt_def, monthIndex_addMonths, monthIndex_addMonths]
  omega

/-! ### Data model (`src/types/rsu.ts`) -/

/-- Model of `VestingEvent` of `rsu.ts`: a vesting tranche.  `price`, `priceError`
and `value` are the optional fields populated later by the valuation
step. -/
structure VestingEvent where
  date : CalDate
  quantity : Int
  price : Option Rat := none
  priceError : Option String := none
  value : Option Rat := none
deriving DecidableEq, Repr

/-- Model of `RSUGrant` of `rsu.ts`. -/
structure RSUGrant where
  grantDate : CalDate
  quantity : Int
  grantPrice : Rat
  symbol : String
  currentPrice : Option Rat := none
  priceError : Option String := none
  vestingSchedule : List VestingEvent
deriving DecidableEq, Repr

/-! ### Vesting schedule generation (`rsuCalculations`, part_000) -/

/-- Value of `Math.ceil(a / b)` for integers and a nonzero divisor:
`⌈a/b⌉ = -⌊-a/b⌋`. -/
def mathCeilDiv (a b : Int) : Int :=
  -((-a).fdiv b)

/-- Fuel-indexed unfolding of the regular-vesting `for` loop; `fuel` bounds
the number of remaining iterations (the loop variable advances by at least
one per iteration when `0 < freq`). -/
def vestMonthListAux (fuel : Nat) (month totalMonths freq : Int) : List Int :=
  match fuel with
  | 0 => []
  | fuel + 1 =>
    if 0 < freq ∧ month ≤ totalMonths then
      month :: vestMonthListAux fuel (month + freq) totalMonths freq
    else []

/-- The values taken by the loop variable of
`for (let month = startMonth; month <= totalMonths; month += freq)`.
The JavaScript loop terminates only for `freq ≥ 1` (hence the `0 < freq`
guard); for such `freq` the list is exactly the sequence of visited `month`
values.  `vestMonthList_eq` below recovers the loop-shaped unfolding. -/
def vestMonthList (month totalMonths freq : Int) : List Int :=
  vestMonthListAux (totalMonths + 1 - month).toNat month totalMonths freq

theorem vestMonthListAux_fuel_irrel :
    ∀ (fuel1 fuel2 : Nat) (month totalMonths freq : Int),
      (totalMonths + 1 - month).toNat ≤ fuel1 →
      (totalMonths + 1 - month).toNat ≤ fuel2 →
      vestMonthListAux fuel1 month totalMonths freq =
        vestMonthListAux fuel2 month totalMonths freq := by
  intro fuel1
  induction fuel1 with
  | zero =>
    intro fuel2 month tm f h1 _h2
    cases fuel2 with
    | zero => rfl
    | succ n =>
      simp only [vestMonthListAux]
      rw [if_neg (by omega)]
  | succ n ih =>
    intro fuel2 month tm f h1 h2
    cases fuel2 with
    | zero =>
      simp only [vestMonthListAux]
      rw [if_neg (by omega)]
    | succ k =>
      simp only [vestMonthListAux]
      by_cases hg : 0 < f ∧ month ≤ tm
      · rw [if_pos hg, if_pos hg]
        exact congrArg _ (ih k (month + f) tm f (by omega) (by omega))
      · rw [if_neg hg, if_neg hg]

/-- The loop-shaped unfolding of `vestMonthList`. -/
theorem vestMonthList_eq (month totalMonths freq : Int) :
    vestMonthList month totalMonths freq =
      if 0 < freq ∧ month ≤ totalMonths then
        month :: vestMonthList (month + freq) totalMonths freq
      else [] := by
  unfold vestMonthList
  by_cases hg : 0 < freq ∧ month ≤ totalMonths
  · rw [if_pos hg]
    have h1 : (totalMonths + 1 - month).toNat = (totalMonths - month).toNat + 1 := by
      omega
    rw [h1]
    simp only [vestMonthListAux]
    rw [if_pos hg]
    exact congrArg _
      (vestMonthListAux_fuel_irrel _ _ _ _ _ (by omega) (by omega))
  · rw [if_neg hg]
    cases h : (totalMonths + 1 - month).toNat with
    | zero => rfl
    | succ n =>
      simp only [vestMonthListAux]
      rw [if_neg hg]

/-- Model of `generateVestingSchedule` of `rsuCalculations`.  `Math.floor` of an
integer quotient is `Int.fdiv`. -/
def generateVestingSchedule (grantDate : CalDate) (totalShares : Int)
    (vestingPeriodYears : Int := 4) (cliffMonths : Int := 12)
    (vestingFrequencyMonths : Int := 1) : List VestingEvent :=
  let totalVestingMonths := vestingPeriodYears * 12
  -- Calculate total vesting events based on whether there's a cliff
  let totalVestingEvents :=
    if cliffMonths > 0 then
      (totalVestingMonths - cliffMonths).fdiv vestingFrequencyMonths + 1
    else
      mathCeilDiv totalVestingMonths vestingFrequencyMonths
  let sharesPerVesting := totalShares.fdiv totalVestingEvents
  let remainingShares := totalShares - sharesPerVesting * totalVestingEvents
  -- Cliff vesting event, if there is a cliff (remaining shares added here)
  let cliffEvents : List VestingEvent :=
    if cliffMonths > 0 then
      [{ date := addMonths grantDate cliffMonths
         quantity := sharesPerVesting + remainingShares }]
    else []
  let startMonth :=
    if cliffMonths > 0 then cliffMonths + vestingFrequencyMonths
    else vestingFrequencyMonths
  -- Regular vesting events
  let regularEvents : List VestingEvent :=
    (vestMonthList startMonth totalVestingMonths vestingFrequencyMonths).map
      (fun month =>
        { date := addMonths grantDate month
          quantity :=
            if cliffMonths > 0 then sharesPerVesting
            else
              -- If no cliff, the source adds remaining shares only when the
              -- loop variable lands exactly on totalVestingMonths
              if month = totalVestingMonths then
                sharesPerVesting + remainingShares
              else sharesPerVesting })
  cliffEvents ++ regularEvents

/-! ### Valuation (`rsuCalculations`, part_000) -/

/-- Model of `calculateTotalVestedShares`: sum of quantities of tranches whose date
is at most `asOfDate` (mirrors `.filter(...).reduce(...)`). -/
def calculateTotalVestedShares (grant : RSUGrant) (asOfDate : CalDate) : Int :=
  (grant.vestingSchedule.filter (fun event => event.date ≤ asOfDate)).foldl
    (fun total event => total + event.quantity) 0

/-- JavaScript `x || y` for an optional number `x`: `undefined` and `0` are
falsy, so both fall back to `y`. -/
def jsOr (x : Option Rat) (y : Rat) : Rat :=
  match x with
  | none => y
  | some p => if p = 0 then y else p

/-- Model of `calculateTotalValue`: `reduce` of `quantity * (price || currentPrice)`
over the schedule. -/
def calculateTotalValue (grant : RSUGrant) (currentPrice : Rat) : Rat :=
  grant.vestingSchedule.foldl
    (fun total event => total + (event.quantity : Rat) * jsOr event.price currentPrice)
    0

/-! ### Price fetching (`stockPrices.ts`) -/

/-- Model of `fetchHistoricalPrice` of `stockPrices.ts`, with the network I/O
abstracted: `outcome` is what the Yahoo-Finance request plus the parsing
chain would produce on this call (a price, or a thrown `PriceFetchError`
message — every non-future path of the source either returns a number or
throws).  The result pairs the function's return value (`Except` mirrors
`throw`; `none` is the JavaScript `null`) with a flag recording whether a
network fetch was attempted. -/
def fetchHistoricalPrice (now date : CalDate) (outcome : Except String Rat) :
    Except String (Option Rat) × Bool :=
  -- If the date is in the future, return null
  if now < date then (Except.ok none, false)
  else
    match outcome with
    | Except.ok price => (Except.ok (some price), true)
    | Except.error e => (Except.error e, true)

/-! ### Valuation update (`updateVestPrices` of `RSUCalculator.tsx`) -/

/-- Model of `updateVestPrices` of `RSUCalculator.tsx` (identically in part_001,
whose extra `setStockPrices` call touches only separate component state),
with the awaited network calls abstracted into outcome parameters:
`fetchCurrent` is the outcome of `fetchStockPrice(grant.symbol)` and
`fetchHist d` the outcome of `fetchHistoricalPrice(grant.symbol, d)`
(`none` = `null`).  `now` is the clock reading of the vested check.  The
outer `try` catches the current-price failure; the inner `try` catches
per-tranche failures. -/
def updateVestPrices (now : CalDate) (fetchCurrent : Except String Rat)
    (fetchHist : CalDate → Except String (Option Rat)) (grant : RSUGrant) :
    RSUGrant :=
  match fetchCurrent with
  | Except.error _ =>
    { grant with priceError := some "Failed to fetch prices" }
  | Except.ok currentPrice =>
    let updatedSchedule := grant.vestingSchedule.map (fun event =>
      -- price/priceError as left by the inner try/catch
      let pe : Option Rat × Option String :=
        if event.date ≤ now then
          -- For vested shares, try to get historical price
          match fetchHist event.date with
          | Except.ok historicalPrice => (historicalPrice, none)
          | Except.error _ => (none, some "Failed to fetch price")
        else
          -- For unvested shares, use current price
          (some currentPrice, none)
      { event with
        price := pe.1
        priceError := pe.2
        value := some ((event.quantity : Rat) * jsOr pe.1 grant.grantPrice) })
    { grant with
      currentPrice := some currentPrice
      vestingSchedule := updatedSchedule }

/-! ### Concrete fixtures used by counterexamples and witnesses -/

/-- Date 2024-01-01, the grant date of the spec's scenarios. -/
def D2024 : CalDate := ⟨2024, 1, 1⟩

/-- Grant of 100 shares vesting over 1 year, no cliff, every 5 months:
valid inputs (positive shares, positive years, cliff ≥ 0, frequency ≥ 1)
on which the no-cliff remainder handling loses shares. -/
def grant100 : RSUGrant :=
  { grantDate := D2024
    quantity := 100
    grantPrice := 1
    symbol := "TC"
    vestingSchedule := generateVestingSchedule D2024 100 1 0 5 }

/-- Grant of 100 shares vesting over 1 year with a 24-month cliff:
valid per the spec's input constraints, but the cliff exceeds the total
vesting months. -/
def grantCliff24 : RSUGrant :=
  { grantDate := D2024
    quantity := 100
    grantPrice := 1
    symbol := "TC"
    vestingSchedule := generateVestingSchedule D2024 100 1 24 1 }

/-- The spec's scenario grant: 1200 shares over 4 years, 12-month cliff,
quarterly vesting. -/
def grant1200 : RSUGrant :=
  { grantDate := D2024
    quantity := 1200
    grantPrice := 1
    symbol := "TC"
    vestingSchedule := generateVestingSchedule D2024 1200 4 12 3 }

/-! ### Supporting lemmas -/

theorem vestMonthListAux_head_eq (fuel : Nat) (month tm f y : Int)
    (hy : y ∈ (vestMonthListAux fuel month tm f).head?) : y = month := by
  cases fuel with
  | zero => simp [vestMonthListAux] at hy
  | succ n =>
    simp only [vestMonthListAux] at hy
    by_cases hg : 0 < f ∧ month ≤ tm
    · rw [if_pos hg] at hy
      simp at hy
      omega
    · rw [if_neg hg] at hy
      simp at hy

theorem vestMonthList_head_eq (month tm f y : Int)
    (hy : y ∈ (vestMonthList month tm f).head?) : y = month :=
  vestMonthListAux_head_eq _ _ _ _ _ hy

theorem vestMonthListAux_chain (fuel : Nat) :
    ∀ (month tm f : Int),
      List.Chain' (fun a b : Int => a < b) (vestMonthListAux fuel month tm f) := by
  induction fuel with
  | zero => intro month tm f; simp [vestMonthListAux]
  | succ n ih =>
    intro month tm f
    simp only [vestMonthListAux]
    by_cases hg : 0 < f ∧ month ≤ tm
    · rw [if_pos hg]
      rw [List.chain'_cons']
      refine ⟨fun y hy => ?_, ih _ _ _⟩
      have hy' := vestMonthListAux_head_eq n (month + f) tm f y hy
      omega
    · rw [if_neg hg]
      exact List.chain'_nil

theorem vestMonthList_chain (month tm f : Int) :
    List.Chain' (fun a b : Int => a < b) (vestMonthList month tm f) :=
  vestMonthListAux_chain _ _ _ _

/-- Folding `total + quantity` over a list equals the starting value plus
the sum of quantities. -/
theorem foldl_add_quantity (l : List VestingEvent) :
    ∀ c : Int,
      l.foldl (fun total event => total + event.quantity) c =
        c + (l.map (fun e => e.quantity)).sum := by
  induction l with
  | nil => intro c; simp
  | cons e l ih => intro c; simp [ih, add_assoc]

/-- Folding `total + quantity * (price || p)` over a list equals the
starting value plus the sum of the per-event values. -/
theorem foldl_add_value (p : Rat) (l : List VestingEvent) :
    ∀ c : Rat,
      l.foldl
          (fun total event => total + (event.quantity : Rat) * jsOr event.price p)
          c =
        c + (l.map (fun e => (e.quantity : Rat) * jsOr e.price p)).sum := by
  induction l with
  | nil => intro c; simp
  | cons e l ih => intro c; simp [ih, add_assoc]

/-- Floor division of a nonnegative dividend by a positive divisor has a
nonnegative quotient and remainder. -/
theorem fdiv_base_rem_nonneg (S count : Int) (hS : 0 ≤ S) (hcount : 1 ≤ count) :
    0 ≤ S.fdiv count ∧ 0 ≤ S - S.fdiv count * count := by
  refine ⟨Int.fdiv_nonneg hS (by omega), ?_⟩
  rw [Int.fdiv_eq_ediv _ (by omega : (0 : Int) ≤ count)]
  have h2 := Int.emod_nonneg S (by omega : count ≠ 0)
  rw [Int.emod_def] at h2
  have h3 : count * (S / count) = S / count * count := Int.mul_comm _ _
  linarith

/-- Under the spec's input constraints plus `cliffMonths ≤ totalMonths`,
the event count computed by the generator is at least 1. -/
theorem eventCount_pos {y c f : Int} (hy : 1 ≤ y) (hf : 1 ≤ f)
    (hcm : c ≤ y * 12) :
    1 ≤ (if c > 0 then (y * 12 - c).fdiv f + 1 else mathCeilDiv (y * 12) f) := by
  split
  · have := Int.fdiv_nonneg (a := y * 12 - c) (b := f) (by omega) (by omega)
    omega
  · have h1 : (-(y * 12)).fdiv f < 0 := Int.fdiv_neg' (by omega) (by omega)
    simp only [mathCeilDiv]
    omega

/-- Under the spec's input constraints plus `cliffMonths ≤ totalMonths`,
every tranche emitted by the generator has a nonnegative quantity. -/
theorem generate_quantity_nonneg (gd : CalDate) {S y c f : Int}
    (hS : 1 ≤ S) (hy : 1 ≤ y) (_hc : 0 ≤ c) (hf : 1 ≤ f) (hcm : c ≤ y * 12) :
    ∀ e ∈ generateVestingSchedule gd S y c f, 0 ≤ e.quantity := by
  intro e he
  have hcount := eventCount_pos (c := c) hy hf hcm
  obtain ⟨hbase, hrem⟩ :=
    fdiv_base_rem_nonneg S
      (if c > 0 then (y * 12 - c).fdiv f + 1 else mathCeilDiv (y * 12) f)
      (by omega) hcount
  simp only [generateVestingSchedule] at he
  by_cases hc0 : c > 0
  · simp only [if_pos hc0] at he hbase hrem
    rcases List.mem_append.mp he with h | h
    · simp only [List.mem_singleton] at h
      subst h
      show 0 ≤ S.fdiv ((y * 12 - c).fdiv f + 1) +
        (S - S.fdiv ((y * 12 - c).fdiv f + 1) * ((y * 12 - c).fdiv f + 1))
      linarith
    · obtain ⟨mo, hmo, rfl⟩ := List.mem_map.mp h
      exact hbase
  · simp only [if_neg hc0] at he hbase hrem
    rcases List.mem_append.mp he with h | h
    · simp at h
    · obtain ⟨mo, hmo, rfl⟩ := List.mem_map.mp h
      show 0 ≤ if mo = y * 12 then
          S.fdiv (mathCeilDiv (y * 12) f) +
            (S - S.fdiv (mathCeilDiv (y * 12) f) * mathCeilDiv (y * 12) f)
        else S.fdiv (mathCeilDiv (y * 12) f)
      split_ifs with h2
      · linarith
      · exact hbase

/-- Summing nonnegative quantities over a date-filtered list is monotone in
the cutoff date. -/
theorem filter_sum_mono :
    ∀ (l : List VestingEvent) (d1 d2 : CalDate),
      (∀ e ∈ l, 0 ≤ e.quantity) → d1 ≤ d2 →
      ((l.filter (fun e => e.date ≤ d1)).map (fun e => e.quantity)).sum ≤
        ((l.filter (fun e => e.date ≤ d2)).map (fun e => e.quantity)).sum := by
  intro l
  induction l with
  | nil => intro d1 d2 _ _; simp
  | cons e l ih =>
    intro d1 d2 hq h12
    have he : 0 ≤ e.quantity := hq e (List.mem_cons_self e l)
    have hl : ∀ x ∈ l, 0 ≤ x.quantity := fun x hx => hq x (List.mem_cons_of_mem e hx)
    have ih' := ih d1 d2 hl h12
    by_cases h1 : e.date ≤ d1
    · have h2 : e.date ≤ d2 := CalDate.le_trans h1 h12
      simp only [List.filter_cons, h1, h2, decide_True, if_true, List.map_cons,
        List.sum_cons]
      exact add_le_add_left ih' _
    · by_cases h2 : e.date ≤ d2
      · simp only [List.filter_cons, h1, h2, decide_True, decide_False,
          Bool.false_eq_true, if_true, if_false, List.map_cons, List.sum_cons]
        exact le_trans ih' (le_add_of_nonneg_left he)
      · simp only [List.filter_cons, h1, h2, decide_False, Bool.false_eq_true,
          if_false]
        exact ih'

/-- Mapping a month-to-tranche constructor whose date component is
`addMonths gd` over a strictly increasing month list yields strictly
increasing dates. -/
theorem chain_dates_map (gd : CalDate) (g : Int → VestingEvent)
    (hg : ∀ m : Int, (g m).date = addMonths gd m) (l : List Int)
    (hl : List.Chain' (fun a b : Int => a < b) l) :
    List.Chain' (fun a b : CalDate => a < b) ((l.map g).map (fun e => e.date)) := by
  rw [List.chain'_map, List.chain'_map]
  refine hl.imp ?_
  intro a b hab
  show (g a).date < (g b).date
  rw [hg a, hg b]
  exact addMonths_strictMono gd hab

/-- Head of the mapped date list of the regular-vesting loop. -/
theorem head_dates_map (gd : CalDate) (g : Int → VestingEvent)
    (hg : ∀ m : Int, (g m).date = addMonths gd m) (m tm f : Int) (b : CalDate)
    (hb : b ∈ (((vestMonthList m tm f).map g).map (fun e => e.date)).head?) :
    b = addMonths gd m := by
  rw [List.head?_map, List.head?_map] at hb
  cases hvl : (vestMonthList m tm f).head? with
  | none => rw [hvl] at hb; simp at hb
  | some mo =>
    have hmo : mo = m := vestMonthList_head_eq m tm f mo (by rw [hvl]; rfl)
    rw [hvl] at hb
    simp only [Option.map_some', Option.mem_def, Option.some_inj] at hb
    rw [← hb, hg, hmo]

/-- Dates of the generated schedule form a strictly increasing chain
whenever the vesting frequency is at least one month. -/
theorem generate_dates_chain (gd : CalDate) {S y c f : Int} (hf : 1 ≤ f) :
    List.Chain' (fun a b : CalDate => a < b)
      ((generateVestingSchedule gd S y c f).map (fun e => e.date)) := by
  simp only [generateVestingSchedule]
  by_cases hc0 : c > 0
  · simp only [if_pos hc0, List.map_append, List.map_cons, List.map_nil,
      List.singleton_append]
    rw [List.chain'_cons']
    constructor
    · intro b hb
      have := head_dates_map gd _ (fun m => rfl) (c + f) (y * 12) f b hb
      subst this
      exact addMonths_strictMono gd (by omega)
    · exact chain_dates_map gd _ (fun m => rfl) _ (vestMonthList_chain _ _ _)
  · simp only [if_neg hc0, List.nil_append]
    exact chain_dates_map gd _ (fun m => rfl) _ (vestMonthList_chain _ _ _)

/-! ### Specification-side valuation definitions (claim C5) -/

/-- Total value exactly as claim C5 states it: the stored price is used
whenever it is present, the fallback price otherwise. -/
def totalValueSpec (grant : RSUGrant) (fallbackPrice : Rat) : Rat :=
  (grant.vestingSchedule.map (fun event =>
    (event.quantity : Rat) *
      (match event.price with
       | some p => p
       | none => fallbackPrice))).sum

/-- Amended total value: the stored price is used only when it is present
and nonzero; an absent or zero stored price falls back (JavaScript `||`
treats a stored 0 as absent). -/
def totalValueSpecNonzero (grant : RSUGrant) (fallbackPrice : Rat) : Rat :=
  (grant.vestingSchedule.map (fun event =>
    (event.quantity : Rat) *
      (match event.price with
       | some p => if p = 0 then fallbackPrice else p
       | none => fallbackPrice))).sum

/-- Grant holding a single tranche whose stored (observed) price is 0. -/
def grantZeroPrice : RSUGrant :=
  { grantDate := D2024
    quantity := 1
    grantPrice := 1
    symbol := "TC"
    vestingSchedule :=
      [{ date := ⟨2025, 1, 1⟩, quantity := 1, price := some 0 }] }

/-! ### Claims -/

/-- C1: the claim says the tranche quantities always sum to `totalShares`
for valid inputs (positive shares, positive years, cliff ≥ 0,
frequency ≥ 1).  At the valid input (100 shares, 1 year, no cliff, every
5 months) the code emits two tranches of 33 shares, summing to 66, not
100: the `ceil`-based event count expects 3 events but only 2 loop
iterations occur and the remainder is never attached, contradicting the
source's own comment that remaining shares go to the last vest. -/
theorem C1_noCliff_sum_loses_shares :
    generateVestingSchedule D2024 100 1 0 5 =
      [{ date := ⟨2024, 6, 1⟩, quantity := 33 },
       { date := ⟨2024, 11, 1⟩, quantity := 33 }] ∧
    ((generateVestingSchedule D2024 100 1 0 5).map (fun e => e.quantity)).sum
      = 66 ∧
    (66 : Int) ≠ 100 := by decide

/-- C2: with no cliff, the claim says the final emitted tranche (at or
nearest below `totalMonths`) carries `base + remainder`.  At (100 shares,
1 year, no cliff, every 5 months): eventCount = ceil(12/5) = 3,
base = 33, remainder = 1, yet the last emitted tranche — month 10, the
nearest below 12 — carries 33, not 34: the source attaches the remainder
only when the loop variable lands exactly on `totalMonths`. -/
theorem C2_final_tranche_misses_remainder :
    mathCeilDiv (1 * 12) 5 = 3 ∧
    (100 : Int).fdiv 3 = 33 ∧
    100 - 33 * 3 = 1 ∧
    ((generateVestingSchedule D2024 100 1 0 5).map (fun e => e.quantity)).getLast?
      = some 33 ∧
    (33 : Int) ≠ 33 + 1 := by decide

/-- Schedule of `grant100`, evaluated. -/
theorem grant100_schedule_eq :
    grant100.vestingSchedule =
      [{ date := ⟨2024, 6, 1⟩, quantity := 33 },
       { date := ⟨2024, 11, 1⟩, quantity := 33 }] := by decide

/-- C3: for a grant whose schedule was generated from its own quantity
field at valid inputs and carries no tranche prices, the claim says the
total value equals `quantity * fallbackPrice`.  `grant100` is such a grant
(schedule generated from its quantity 100, all prices absent), yet
`calculateTotalValue grant100 7 = 462 ≠ 700 = 100 * 7`: the generator
loses shares at this input (see C1), so the tranche quantities no longer
sum to the grant quantity. -/
theorem C3_totalValue_not_quantity_times_fallback :
    grant100.vestingSchedule
      = generateVestingSchedule D2024 grant100.quantity 1 0 5 ∧
    grant100.vestingSchedule.map (fun e => e.price) = [none, none] ∧
    calculateTotalValue grant100 7 = 462 ∧
    (grant100.quantity : Rat) * 7 = 700 ∧
    calculateTotalValue grant100 7 ≠ (grant100.quantity : Rat) * 7 := by
  have hval : calculateTotalValue grant100 7 = 462 := by
    norm_num [calculateTotalValue, grant100_schedule_eq, jsOr]
  refine ⟨rfl, by decide, hval, by norm_num [grant100], ?_⟩
  rw [hval]
  norm_num [grant100]

/-- C4 counterexample: the claim (quoting the spec's scenario) gives the
first tranche's quantity as `1200/16 = 75`; the code produces 96. -/
theorem C4_first_tranche_not_75 :
    ((generateVestingSchedule D2024 1200 4 12 3).head?.map (fun e => e.quantity))
      = some 96 ∧
    (96 : Int) ≠ 75 := by decide

/-- C4 amended: `generate(2024-01-01, 1200, vestingYears 4, cliff 12,
every 3 months)` yields a cliff tranche at 2025-01-01 of 96 shares
(eventCount = floor((48-12)/3)+1 = 13, base = floor(1200/13) = 92,
remainder = 4, so the cliff tranche carries 92 + 4 = 96), followed by 12
quarterly tranches of 92 shares, all quantities totalling 1200. -/
theorem C4_scenario :
    ((4 * 12 : Int) - 12).fdiv 3 + 1 = 13 ∧
    (1200 : Int).fdiv 13 = 92 ∧
    1200 - 92 * 13 = 4 ∧
    generateVestingSchedule D2024 1200 4 12 3 =
      [{ date := ⟨2025, 1, 1⟩, quantity := 96 },
       { date := ⟨2025, 4, 1⟩, quantity := 92 },
       { date := ⟨2025, 7, 1⟩, quantity := 92 },
       { date := ⟨2025, 10, 1⟩, quantity := 92 },
       { date := ⟨2026, 1, 1⟩, quantity := 92 },
       { date := ⟨2026, 4, 1⟩, quantity := 92 },
       { date := ⟨2026, 7, 1⟩, quantity := 92 },
       { date := ⟨2026, 10, 1⟩, quantity := 92 },
       { date := ⟨2027, 1, 1⟩, quantity := 92 },
       { date := ⟨2027, 4, 1⟩, quantity := 92 },
       { date := ⟨2027, 7, 1⟩, quantity := 92 },
       { date := ⟨2027, 10, 1⟩, quantity := 92 },
       { date := ⟨2028, 1, 1⟩, quantity := 92 }] ∧
    ((generateVestingSchedule D2024 1200 4 12 3).map (fun e => e.quantity)).sum
      = 1200 := by decide

/-- C5 counterexample: on a tranche with a stored price of 0, the code
uses the fallback price (JavaScript `||` treats 0 as falsy), while the
claim requires the stored price: the code yields 1 * 5 = 5, the claim's
reading 1 * 0 = 0. -/
theorem C5_zero_price_uses_fallback :
    calculateTotalValue grantZeroPrice 5 = 5 ∧
    totalValueSpec grantZeroPrice 5 = 0 ∧
    calculateTotalValue grantZeroPrice 5 ≠ totalValueSpec grantZeroPrice 5 := by
  norm_num [calculateTotalValue, totalValueSpec, grantZeroPrice, jsOr]

/-- C5 amended: `calculateTotalValue` sums, over all tranches,
`quantity * p` where `p` is the stored price when that price is present
and nonzero, and the fallback price otherwise. -/
theorem C5_totalValue_amended (grant : RSUGrant) (fallbackPrice : Rat) :
    calculateTotalValue grant fallbackPrice =
      totalValueSpecNonzero grant fallbackPrice := by
  rw [calculateTotalValue, totalValueSpecNonzero, foldl_add_value, zero_add]
  refine congrArg List.sum (List.map_congr_left fun e _ => ?_)
  cases hp : e.price with
  | none => simp [jsOr]
  | some p =>
    by_cases hz : p = 0
    · simp [jsOr, hz]
    · simp [jsOr, hz]

/-- C6: for every valid input (positive shares, positive vesting years,
cliff ≥ 0, frequency ≥ 1), the dates of the generated tranches — each the
grant date plus the tranche's month offset under calendar-month addition
with end-of-month clamping — are strictly increasing. -/
theorem C6_dates_strictly_increasing (gd : CalDate) (S y c f : Int)
    (_hS : 1 ≤ S) (_hy : 1 ≤ y) (_hc : 0 ≤ c) (hf : 1 ≤ f) :
    List.Chain' (fun a b : CalDate => a < b)
      ((generateVestingSchedule gd S y c f).map (fun e => e.date)) :=
  generate_dates_chain gd hf

theorem C6_dates_strictly_increasing_witness :
    List.Chain' (fun a b : CalDate => a < b)
      ((generateVestingSchedule D2024 1200 4 12 3).map (fun e => e.date)) :=
  C6_dates_strictly_increasing D2024 1200 4 12 3 (by decide) (by decide)
    (by decide) (by decide)

/-- C7 counterexample: at the input (100 shares, 1 year, 24-month cliff,
monthly) — valid by the spec's stated constraints (positive shares,
positive years, cliff ≥ 0, frequency ≥ 1) — the computed event count is
negative, the single cliff tranche carries −20 shares, and the vested
total drops from 0 to −20 as the as-of date advances past it: the claim's
monotonicity fails. -/
theorem C7_not_monotone_for_cliff_past_end :
    grantCliff24.vestingSchedule = generateVestingSchedule D2024 100 1 24 1 ∧
    ((⟨2025, 1, 1⟩ : CalDate) ≤ ⟨2026, 6, 1⟩) ∧
    calculateTotalVestedShares grantCliff24 ⟨2025, 1, 1⟩ = 0 ∧
    calculateTotalVestedShares grantCliff24 ⟨2026, 6, 1⟩ = -20 ∧
    ¬ (calculateTotalVestedShares grantCliff24 ⟨2025, 1, 1⟩ ≤
        calculateTotalVestedShares grantCliff24 ⟨2026, 6, 1⟩) := by
  refine ⟨rfl, by decide, by decide, by decide, by decide⟩

/-- C7 amended: for grants whose schedule was generated from valid inputs
whose cliff does not exceed the total vesting months (so that all tranche
quantities are nonnegative), the vested-share total is monotonically
non-decreasing in the as-of date. -/
theorem C7_vested_monotone (gd : CalDate) (S y c f : Int) (g : RSUGrant)
    (hS : 1 ≤ S) (hy : 1 ≤ y) (hc : 0 ≤ c) (hf : 1 ≤ f) (hcm : c ≤ y * 12)
    (hg : g.vestingSchedule = generateVestingSchedule gd S y c f)
    (d1 d2 : CalDate) (h12 : d1 ≤ d2) :
    calculateTotalVestedShares g d1 ≤ calculateTotalVestedShares g d2 := by
  rw [calculateTotalVestedShares, calculateTotalVestedShares,
    foldl_add_quantity, foldl_add_quantity, zero_add, zero_add]
  exact filter_sum_mono g.vestingSchedule d1 d2
    (by rw [hg]; exact generate_quantity_nonneg gd hS hy hc hf hcm) h12

theorem C7_vested_monotone_witness :
    calculateTotalVestedShares grant1200 ⟨2025, 6, 1⟩ ≤
      calculateTotalVestedShares grant1200 ⟨2026, 6, 1⟩ :=
  C7_vested_monotone D2024 1200 4 12 3 grant1200 (by decide) (by decide)
    (by decide) (by decide) (by decide) rfl ⟨2025, 6, 1⟩ ⟨2026, 6, 1⟩ (by decide)

/-- C8: for a date strictly later than the current date,
`fetchHistoricalPrice` returns `null` — a successful result, distinct
from failing with a `PriceFetchError` — and attempts no network fetch,
whatever the fetch would have produced. -/
theorem C8_future_date_returns_null (now date : CalDate)
    (outcome : Except String Rat) (h : now < date) :
    fetchHistoricalPrice now date outcome = (Except.ok none, false) := by
  rw [fetchHistoricalPrice.eq_def, if_pos h]

theorem C8_future_date_returns_null_witness :
    fetchHistoricalPrice ⟨2026, 10, 11⟩ ⟨2026, 10, 12⟩
        (Except.error "PriceFetchError") = (Except.ok none, false) :=
  C8_future_date_returns_null ⟨2026, 10, 11⟩ ⟨2026, 10, 12⟩
    (Except.error "PriceFetchError") (by decide)

/-- C9: for every fetch outcome, `updateVestPrices` returns a grant whose
schedule has the same length as the input with every tranche's date and
quantity unchanged, and whose grantDate, quantity, grantPrice and symbol
are unchanged; only currentPrice, priceError and the tranches'
price/priceError/value fields may differ. -/
theorem C9_updateVestPrices_frame (now : CalDate)
    (fetchCurrent : Except String Rat)
    (fetchHist : CalDate → Except String (Option Rat)) (grant : RSUGrant) :
    (updateVestPrices now fetchCurrent fetchHist grant).grantDate
      = grant.grantDate ∧
    (updateVestPrices now fetchCurrent fetchHist grant).quantity
      = grant.quantity ∧
    (updateVestPrices now fetchCurrent fetchHist grant).grantPrice
      = grant.grantPrice ∧
    (updateVestPrices now fetchCurrent fetchHist grant).symbol
      = grant.symbol ∧
    (updateVestPrices now fetchCurrent fetchHist grant).vestingSchedule.length
      = grant.vestingSchedule.length ∧
    (updateVestPrices now fetchCurrent fetchHist grant).vestingSchedule.map
        (fun e => (e.date, e.quantity))
      = grant.vestingSchedule.map (fun e => (e.date, e.quantity)) := by
  cases fetchCurrent with
  | error e => exact ⟨rfl, rfl, rfl, rfl, rfl, rfl⟩
  | ok p =>
    refine ⟨rfl, rfl, rfl, rfl, ?_, ?_⟩
    · show (grant.vestingSchedule.map _).length = grant.vestingSchedule.length
      rw [List.length_map]
    · show (grant.vestingSchedule.map _).map _ = _
      rw [List.map_map]
      exact List.map_congr_left fun e _ => rfl

/-- C10: when the current-price fetch fails, `updateVestPrices` returns
the input grant with only `priceError` set to the error message: the
schedule — any previously attached per-tranche prices and values included
— and `currentPrice` are exactly as before, and the result does not
depend on the historical-price fetch, which is therefore never
attempted. -/
theorem C10_current_fetch_failure_frame (now : CalDate) (errMsg : String)
    (fetchHist : CalDate → Except String (Option Rat)) (grant : RSUGrant) :
    updateVestPrices now (Except.error errMsg) fetchHist grant =
      { grant with priceError := some "Failed to fetch prices" } := rfl
